import Mathlib

/-!
Shallow embedding of xskillscore/core/probabilistic.py (the probabilistic
scoring adapter around properscoring kernels and xarray labeled arrays),
together with theorems checking the natural-language specification against it.

Modelling conventions:
* A labeled array (xarray.DataArray) is a DA: an ordered list of dimension
  names, a size and a coordinate-label list per dimension name, cell data
  indexed by an assignment of dimension names to indices, and an attribute
  list.  Numeric cell values are rationals.
* The external properscoring kernels are pure numeric functions; the module
  under verification never inspects them, so every operation takes its kernel
  as an explicit function argument.
* The xarray collaborators that the source invokes (broadcast, apply_ufunc
  core-dimension bookkeeping, mean, weighted mean) are embedded here with
  their documented semantics, since the claims are about how the source
  invokes them.
-/

namespace XSkill

/-- Model of an xarray labeled array: named dimensions in order, a size for
each dimension name, coordinate labels per dimension, cell data indexed by an
assignment of every dimension name to an index, and free-form attributes. -/
@[ext]
structure DA where
  dims : List String
  size : String → Nat
  coords : String → List ℚ
  data : (String → Nat) → ℚ
  attrs : List (String × String)

/-- Well-formedness: the cell data only depends on the indices of the array's
own dimensions (the assignment is junk elsewhere). -/
def DA.wf (a : DA) : Prop :=
  ∀ f g : String → Nat, (∀ d ∈ a.dims, f d = g d) → a.data f = a.data g

/-- Ordered union of dimension-name lists, first argument's order first, as
xarray produces for broadcast and apply_ufunc results. -/
def unionDims (xs ys : List String) : List String :=
  xs ++ ys.filter (fun d => decide (d ∉ xs))

/-- Update an index assignment at one dimension name. -/
def override (f : String → Nat) (d : String) (i : Nat) : String → Nat :=
  fun x => if x = d then i else f x

/-- Sum of g over all index assignments of the listed dimensions, laid over a
base assignment f (used to embed xarray reductions). -/
def sumOverD (size : String → Nat) (g : (String → Nat) → ℚ) :
    List String → (String → Nat) → ℚ
  | [], f => g f
  | d :: ds, f =>
      ((List.range (size d)).map (fun i => sumOverD size g ds (override f d i))).sum

/-- All index tuples of a rectangular index space with the given extents. -/
def indexTuples : List Nat → List (List Nat)
  | [] => [[]]
  | n :: rest => (List.range n).flatMap (fun i => (indexTuples rest).map (fun t => i :: t))

/-- Lay a tuple of indices for the listed dimensions over a base assignment;
earlier dimensions are applied first. -/
def overrideAll (f : String → Nat) : List String → List Nat → String → Nat
  | [], _ => f
  | _ :: _, [] => f
  | d :: ds, i :: is => overrideAll (override f d i) ds is

/-- Embedding of DataArray.mean(dim, keep_attrs): unweighted arithmetic mean
over the listed dimensions; reduced dimensions leave the dims and coords. -/
def meanDA (a : DA) (ds : List String) (kA : Bool) : DA :=
  { dims := a.dims.filter (fun d => decide (d ∉ ds))
    size := a.size
    coords := fun d => if d ∈ ds then [] else a.coords d
    data := fun f => sumOverD a.size a.data ds f / (((ds.map a.size).prod : ℕ) : ℚ)
    attrs := if kA then a.attrs else [] }

/-- Embedding of DataArray.weighted(w).mean(dim, keep_attrs):
sum(value * weight) / sum(weight) over the listed dimensions. -/
def weightedMeanDA (a w : DA) (ds : List String) (kA : Bool) : DA :=
  { dims := a.dims.filter (fun d => decide (d ∉ ds))
    size := a.size
    coords := fun d => if d ∈ ds then [] else a.coords d
    data := fun f =>
      sumOverD a.size (fun h => a.data h * w.data h) ds f / sumOverD a.size w.data ds f
    attrs := if kA then a.attrs else [] }

/-- Resolve the dim argument of the reduction: None means every dimension of
the array being reduced. -/
def reduceDims (a : DA) : Option (List String) → List String
  | none => a.dims
  | some ds => ds

/-- The common tail of every public operation in the source module:
if weights is not None: res.weighted(weights).mean(dim, keep_attrs)
else: res.mean(dim, keep_attrs). -/
def reductionStage (res : DA) (dim : Option (List String)) (weights : Option DA)
    (kA : Bool) : DA :=
  match weights with
  | some w => weightedMeanDA res w (reduceDims res dim) kA
  | none => meanDA res (reduceDims res dim) kA

/-- A multi-variable container (xarray.Dataset): named variables. -/
abbrev Ds := List (String × DA)

/-- Dimension names of a Dataset: union over its variables. -/
def dsDims (c : Ds) : List String :=
  c.foldl (fun acc p => unionDims acc p.2.dims) []

/-- Reduction of a Dataset: each variable is reduced independently. -/
def reductionStageDs (c : Ds) (dim : Option (List String)) (weights : Option DA)
    (kA : Bool) : Ds :=
  c.map (fun p => (p.1, reductionStage p.2 dim weights kA))

/-- The mu and sig arguments of crps_gaussian: a bare Python number or a
labeled array. -/
inductive GaussIn where
  | scalar (q : ℚ)
  | arr (a : DA)

/-- Lines 47-50 of the source: a bare int or float is promoted to a
zero-dimensional DataArray. -/
def promote : GaussIn → DA
  | .scalar q =>
      { dims := [], size := fun _ => 1, coords := fun _ => [],
        data := fun _ => q, attrs := [] }
  | .arr a => a

/-- Embedding of xr.broadcast on two arrays: both results carry the ordered
union of the dimension names; data and attrs of each input are preserved. -/
def xrBroadcast (a b : DA) : DA × DA :=
  let u := unionDims a.dims b.dims
  let ms := fun d => if d ∈ a.dims then a.size d else b.size d
  let mc := fun d => if d ∈ a.dims then a.coords d else b.coords d
  ({ dims := u, size := ms, coords := mc, data := a.data, attrs := a.attrs },
   { dims := u, size := ms, coords := mc, data := b.data, attrs := b.attrs })

/-- Lines 51-54 of the source, one pair at a time:
if y.dims != x.dims: x, y = xr.broadcast(x, y). -/
def normPair (x y : DA) : DA × DA :=
  if y.dims = x.dims then (x, y) else xrBroadcast x y

/-- The apply_ufunc call of crps_gaussian (lines 55-64): elementwise kernel
over the broadcast frame, no core dimensions, attrs from the first input when
keep_attrs is set. -/
def applyGaussian (k : ℚ → ℚ → ℚ → ℚ) (o m s : DA) (kA : Bool) : DA :=
  { dims := unionDims (unionDims o.dims m.dims) s.dims
    size := fun d => if d ∈ o.dims then o.size d else if d ∈ m.dims then m.size d else s.size d
    coords := fun d => if d ∈ o.dims then o.coords d else if d ∈ m.dims then m.coords d else s.coords d
    data := fun f => k (o.data f) (m.data f) (s.data f)
    attrs := if kA then o.attrs else [] }

/-- crps_gaussian from the source: promote scalars, align pairwise against
observations, apply the kernel, then the reduction stage. -/
def crps_gaussian (k : ℚ → ℚ → ℚ → ℚ) (observations : DA) (mu sig : GaussIn)
    (dim : Option (List String)) (weights : Option DA) (keep_attrs : Bool) : DA :=
  let p1 := normPair observations (promote mu)
  let p2 := normPair p1.1 (promote sig)
  reductionStage (applyGaussian k p2.1 p1.2 p2.2 keep_attrs) dim weights keep_attrs

/-- crps_quadrature from the source: elementwise kernel over the observations
with the distribution object and bounds passed through verbatim, then the
reduction stage. -/
def crps_quadrature (k : ℚ → (ℚ → ℚ) → Option ℚ → Option ℚ → ℚ → ℚ) (x : DA)
    (cdf : ℚ → ℚ) (xmin xmax : Option ℚ) (tol : ℚ) (dim : Option (List String))
    (weights : Option DA) (keep_attrs : Bool) : DA :=
  reductionStage
    { dims := x.dims, size := x.size, coords := x.coords,
      data := fun f => k (x.data f) cdf xmin xmax tol,
      attrs := if keep_attrs then x.attrs else [] }
    dim weights keep_attrs

/-- The vector of forecast members at one broadcast cell: the slice of the
forecasts along the member dimension (apply_ufunc passes the member core
dimension to the kernel as the last axis). -/
def membersOf (fc : DA) (member : String) (f : String → Nat) : List ℚ :=
  (List.range (fc.size member)).map (fun i => fc.data (override f member i))

/-- crps_ensemble from the source: apply_ufunc with input_core_dims
[[], [member_dim]]; a forecasts input missing the member core dimension makes
apply_ufunc raise, embedded as an error result.  The kernel receives the
member slice, the member_weights object and the issorted flag. -/
def crps_ensemble (k : ℚ → List ℚ → Option (List ℚ) → Bool → ℚ)
    (observations forecasts : DA) (member_weights : Option (List ℚ))
    (issorted : Bool) (member_dim : String) (dim : Option (List String))
    (weights : Option DA) (keep_attrs : Bool) : Except String DA :=
  if member_dim ∈ forecasts.dims then
    .ok (reductionStage
      { dims := unionDims observations.dims
          (forecasts.dims.filter (fun d => decide (d ≠ member_dim)))
        size := fun d => if d ∈ observations.dims then observations.size d else forecasts.size d
        coords := fun d => if d ∈ observations.dims then observations.coords d else forecasts.coords d
        data := fun f =>
          k (observations.data f) (membersOf forecasts member_dim f) member_weights issorted
        attrs := if keep_attrs then observations.attrs else [] }
      dim weights keep_attrs)
  else
    .error ("operand to apply_ufunc is missing required core dimension " ++ member_dim)

/-- brier_score from the source: elementwise kernel, no core dimensions, then
the reduction stage. -/
def brier_score (k : ℚ → ℚ → ℚ) (observations forecasts : DA)
    (dim : Option (List String)) (weights : Option DA) (keep_attrs : Bool) : DA :=
  reductionStage
    { dims := unionDims observations.dims forecasts.dims
      size := fun d => if d ∈ observations.dims then observations.size d else forecasts.size d
      coords := fun d => if d ∈ observations.dims then observations.coords d else forecasts.coords d
      data := fun f => k (observations.data f) (forecasts.data f)
      attrs := if keep_attrs then observations.attrs else [] }
    dim weights keep_attrs

/-- The Python value handed to threshold_brier_score as its threshold
argument.  Python booleans are a subclass of int, which matters for the
isinstance checks below. -/
inductive PyThreshold where
  | int (n : Int)
  | float (q : ℚ)
  | bool (b : Bool)
  | list (l : List ℚ)
  | dataArray (a : DA)
  | dataset (c : Ds)
  | other (desc : String)

/-- isinstance(threshold, (int, float)) in Python: true for int, float and
bool values, since bool is a subclass of int. -/
def PyThreshold.isNumber : PyThreshold → Bool
  | .int _ => true
  | .float _ => true
  | .bool _ => true
  | _ => false

/-- The numeric value of a Python int, float or bool (True == 1, False == 0). -/
def PyThreshold.toRat : PyThreshold → ℚ
  | .int n => (n : ℚ)
  | .float q => q
  | .bool b => if b then 1 else 0
  | _ => 0

/-- The payload of a list threshold (for stating mutation facts). -/
def PyThreshold.listValue : PyThreshold → List ℚ
  | .list l => l
  | _ => []

/-- Python list.sort(): stable ascending in-place sort; this is the value the
list holds afterwards. -/
def pySortList (l : List ℚ) : List ℚ :=
  List.insertionSort (fun a b => a ≤ b) l

/-- Lines 306-309 of the source: a list threshold is sorted, materialized as
a DataArray along a dimension named threshold, and given the coordinate
labels arange(1, 1 + size). -/
def materializeThreshold (l : List ℚ) : DA :=
  let s := pySortList l
  { dims := ["threshold"]
    size := fun d => if d = "threshold" then s.length else 1
    coords := fun d =>
      if d = "threshold" then (List.range s.length).map (fun i => ((i + 1 : ℕ) : ℚ)) else []
    data := fun f => s.getD (f "threshold") 0
    attrs := [] }

/-- How lines 306-326 route the threshold argument: to the scalar kernel
signature, or to the vector signature with a threshold core dimension. -/
inductive Routed where
  | scalar (q : ℚ)
  | vecArr (a : DA)
  | vecDs (c : Ds)

/-- Lines 306-326 of the source: a list is materialized (and then always has
the threshold dimension); a DataArray or Dataset must already carry a
dimension named threshold or a ValueError is raised; an int, float (hence
also bool) is routed as a scalar; anything else raises a ValueError. -/
def routeThreshold : PyThreshold → Except String Routed
  | .list l => .ok (.vecArr (materializeThreshold l))
  | .dataArray a =>
      if "threshold" ∈ a.dims then .ok (.vecArr a)
      else .error "please provide threshold with threshold dim"
  | .dataset c =>
      if "threshold" ∈ dsDims c then .ok (.vecDs c)
      else .error "please provide threshold with threshold dim"
  | .int n => .ok (.scalar ((n : Int) : ℚ))
  | .float q => .ok (.scalar q)
  | .bool b => .ok (.scalar (if b then 1 else 0))
  | .other _ =>
      .error "Please provide threshold as list, int, float or xr.object with threshold dimension"

/-- Result of threshold_brier_score: a DataArray, or a Dataset when the
threshold was supplied as a Dataset. -/
inductive TbsRes where
  | arr (a : DA)
  | dset (c : Ds)

/-- The kernel output of the scalar-threshold apply_ufunc call of
threshold_brier_score: input_core_dims [[], [member_dim], []],
output_core_dims [[]]. -/
def tbsScalarKernelOut (k : ℚ → List ℚ → ℚ → Bool → ℚ) (o fc : DA) (q : ℚ)
    (issorted : Bool) (member : String) (kA : Bool) : DA :=
  { dims := unionDims o.dims (fc.dims.filter (fun d => decide (d ≠ member)))
    size := fun d => if d ∈ o.dims then o.size d else fc.size d
    coords := fun d => if d ∈ o.dims then o.coords d else fc.coords d
    data := fun f => k (o.data f) (membersOf fc member f) q issorted
    attrs := if kA then o.attrs else [] }

/-- The scalar-threshold apply_ufunc call of threshold_brier_score; a
forecasts input missing the member core dimension makes apply_ufunc raise. -/
def applyTbsScalar (k : ℚ → List ℚ → ℚ → Bool → ℚ) (o fc : DA) (q : ℚ)
    (issorted : Bool) (member : String) (kA : Bool) : Except String DA :=
  if member ∈ fc.dims then .ok (tbsScalarKernelOut k o fc q issorted member kA)
  else .error ("operand to apply_ufunc is missing required core dimension " ++ member)

/-- The kernel output of the vector-threshold apply_ufunc call of
threshold_brier_score: input_core_dims [[], [member_dim], [threshold]],
output_core_dims [[threshold]]; the new threshold output dimension is
appended last. -/
def tbsVectorKernelOut (k : ℚ → List ℚ → ℚ → Bool → ℚ) (o fc thr : DA)
    (issorted : Bool) (member : String) (kA : Bool) : DA :=
  { dims :=
      unionDims (unionDims o.dims (fc.dims.filter (fun d => decide (d ≠ member))))
        (thr.dims.filter (fun d => decide (d ≠ "threshold"))) ++ ["threshold"]
    size := fun d =>
      if d ∈ o.dims then o.size d else if d ∈ fc.dims then fc.size d else thr.size d
    coords := fun d =>
      if d ∈ o.dims then o.coords d else if d ∈ fc.dims then fc.coords d else thr.coords d
    data := fun f => k (o.data f) (membersOf fc member f) (thr.data f) issorted
    attrs := if kA then o.attrs else [] }

/-- The vector-threshold apply_ufunc call of threshold_brier_score; inputs
missing their declared core dimension make apply_ufunc raise. -/
def applyTbsVector (k : ℚ → List ℚ → ℚ → Bool → ℚ) (o fc thr : DA)
    (issorted : Bool) (member : String) (kA : Bool) : Except String DA :=
  if member ∈ fc.dims then
    if "threshold" ∈ thr.dims then .ok (tbsVectorKernelOut k o fc thr issorted member kA)
    else .error "operand to apply_ufunc is missing required core dimension threshold"
  else .error ("operand to apply_ufunc is missing required core dimension " ++ member)

/-- threshold_brier_score from the source: route the threshold (lines
306-326), apply the kernel with the routed core-dimension lists (lines
327-338), then the reduction stage (lines 339-342).  A Dataset threshold is
applied per variable, yielding a Dataset. -/
def threshold_brier_score (k : ℚ → List ℚ → ℚ → Bool → ℚ)
    (observations forecasts : DA) (threshold : PyThreshold) (issorted : Bool)
    (member_dim : String) (dim : Option (List String)) (weights : Option DA)
    (keep_attrs : Bool) : Except String TbsRes :=
  match routeThreshold threshold with
  | .error e => .error e
  | .ok (.scalar q) =>
      (applyTbsScalar k observations forecasts q issorted member_dim keep_attrs).map
        (fun res => .arr (reductionStage res dim weights keep_attrs))
  | .ok (.vecArr a) =>
      (applyTbsVector k observations forecasts a issorted member_dim keep_attrs).map
        (fun res => .arr (reductionStage res dim weights keep_attrs))
  | .ok (.vecDs c) =>
      (c.mapM (fun p =>
          (applyTbsVector k observations forecasts p.2 issorted member_dim keep_attrs).map
            (fun r => (p.1, r)))).map
        (fun vars => .dset (reductionStageDs vars dim weights keep_attrs))

/-- Caller-visible value of the threshold argument object after
threshold_brier_score returns: line 307 sorts a list threshold in place
before the local name is rebound, so the caller's list object ends up sorted
ascending; arguments of every other kind are never written to. -/
def thresholdArgAfterCall : PyThreshold → PyThreshold
  | .list l => .list (pySortList l)
  | t => t

/-- Drop a singleton dimension from an array (select index 0 along it and
remove it from the dims), as xarray squeeze/isel does. -/
def dropDim (name : String) (a : DA) : DA :=
  { dims := a.dims.filter (fun d => decide (d ≠ name))
    size := a.size
    coords := fun d => if d = name then [] else a.coords d
    data := fun f => a.data (override f name 0)
    attrs := a.attrs }

/-- Equality of labeled arrays as xarray values: same dimension names in the
same order, same sizes, coordinates and data on those dimensions, and the
same attributes. -/
def DAequiv (a b : DA) : Prop :=
  a.dims = b.dims ∧ (∀ d ∈ a.dims, a.size d = b.size d) ∧
    (∀ d ∈ a.dims, a.coords d = b.coords d) ∧ (∀ f, a.data f = b.data f) ∧
    a.attrs = b.attrs

/-- The vector of cell values of an array along one dimension, other indices
held at zero. -/
def valuesAlong (a : DA) (d : String) : List ℚ :=
  (List.range (a.size d)).map (fun i => a.data (override (fun _ => 0) d i))

lemma override_comm (f : String → Nat) (d e : String) (i j : Nat) (h : d ≠ e) :
    override (override f d i) e j = override (override f e j) d i := by
  funext x
  by_cases h1 : x = d
  · subst h1; simp [override, h]
  · by_cases h2 : x = e <;> simp [override, h1, h2, Ne.symm h]

lemma sum_flatMap_rat {α : Type} (l : List α) (f : α → List ℚ) :
    (l.flatMap f).sum = (l.map (fun a => (f a).sum)).sum := by
  induction l with
  | nil => simp
  | cons a l ih => simp [List.flatMap_cons, List.sum_append, ih]

lemma sumOverD_eq_tuples (size : String → Nat) (g : (String → Nat) → ℚ)
    (ds : List String) (f : String → Nat) :
    sumOverD size g ds f =
      ((indexTuples (ds.map size)).map (fun t => g (overrideAll f ds t))).sum := by
  induction ds generalizing f with
  | nil => simp [sumOverD, indexTuples, overrideAll]
  | cons d ds ih =>
      simp only [sumOverD, List.map_cons, indexTuples, List.map_flatMap, List.map_map]
      rw [sum_flatMap_rat]
      congr 1
      apply List.map_congr_left
      intro i _
      rw [ih (override f d i)]
      rfl

lemma indexTuples_length (ns : List Nat) : (indexTuples ns).length = ns.prod := by
  induction ns with
  | nil => rfl
  | cons n ns ih =>
      simp only [indexTuples, List.length_flatMap, List.prod_cons]
      have hconst :
          List.map (List.length ∘ fun i => List.map (fun t => i :: t) (indexTuples ns))
              (List.range n) =
            List.map (fun _ => ns.prod) (List.range n) := by
        apply List.map_congr_left
        intro i _
        simp [ih]
      rw [hconst]
      simp [List.map_const', List.sum_replicate, smul_eq_mul]

lemma sumOverD_congr (s1 s2 : String → Nat) (g1 g2 : (String → Nat) → ℚ)
    (ds : List String) (f : String → Nat)
    (hs : ∀ d ∈ ds, s1 d = s2 d) (hg : ∀ h : String → Nat, g1 h = g2 h) :
    sumOverD s1 g1 ds f = sumOverD s2 g2 ds f := by
  induction ds generalizing f with
  | nil => exact hg f
  | cons d ds ih =>
      simp only [sumOverD]
      rw [hs d (List.mem_cons_self d ds)]
      congr 1
      apply List.map_congr_left
      intro i _
      exact ih _ (fun x hx => hs x (List.mem_cons_of_mem _ hx))

lemma sumOverD_base_override (size : String → Nat) (g : (String → Nat) → ℚ)
    (ds : List String) (f : String → Nat) (th : String) (v : Nat) (h : th ∉ ds) :
    sumOverD size g ds (override f th v) =
      sumOverD size (fun h2 => g (override h2 th v)) ds f := by
  induction ds generalizing f with
  | nil => rfl
  | cons d ds ih =>
      have hd : th ≠ d := fun hEq => h (hEq ▸ List.mem_cons_self d ds)
      have hth : th ∉ ds := fun hm => h (List.mem_cons_of_mem _ hm)
      simp only [sumOverD]
      congr 1
      apply List.map_congr_left
      intro i _
      rw [override_comm f th d v i hd]
      exact ih (override f d i) hth

lemma sumOverD_const_one (size : String → Nat) (ds : List String) (f : String → Nat) :
    sumOverD size (fun _ => (1 : ℚ)) ds f = (((ds.map size).prod : ℕ) : ℚ) := by
  induction ds generalizing f with
  | nil => simp [sumOverD]
  | cons d ds ih =>
      simp only [sumOverD, List.map_cons, List.prod_cons]
      rw [List.map_congr_left (fun i _ => ih (override f d i))]
      simp [List.map_const', List.sum_replicate, smul_eq_mul, Nat.cast_mul]

lemma map_range_getD (s : List ℚ) :
    (List.range s.length).map (fun i => s.getD i 0) = s := by
  apply List.ext_getElem
  · simp
  · intro n h1 h2
    simp only [List.getElem_map, List.getElem_range]
    exact List.getD_eq_getElem s 0 h2

lemma filter_ne_of_not_mem (th : String) (xs : List String) (h : th ∉ xs) :
    xs.filter (fun d => decide (d ≠ th)) = xs := by
  apply List.filter_eq_self.mpr
  intro a ha
  simp only [decide_eq_true_eq]
  exact fun hEq => h (hEq ▸ ha)

lemma unionDims_toFinset (xs ys : List String) :
    (unionDims xs ys).toFinset = xs.toFinset ∪ ys.toFinset := by
  ext d
  simp only [unionDims, List.mem_toFinset, List.mem_append, List.mem_filter,
    decide_eq_true_eq, Finset.mem_union]
  tauto

lemma mem_unionDims (d : String) (xs ys : List String) :
    d ∈ unionDims xs ys ↔ d ∈ xs ∨ d ∈ ys := by
  simp only [unionDims, List.mem_append, List.mem_filter, decide_eq_true_eq]
  tauto

lemma reductionStage_attrs (res : DA) (dim : Option (List String))
    (weights : Option DA) (kA : Bool) :
    (reductionStage res dim weights kA).attrs = if kA then res.attrs else [] := by
  cases weights <;> rfl

lemma normPair_fst_attrs (x y : DA) : (normPair x y).1.attrs = x.attrs := by
  unfold normPair xrBroadcast
  split <;> rfl

lemma reductionStage_dims_subset (res : DA) (dim : Option (List String))
    (weights : Option DA) (kA : Bool) :
    ∀ d ∈ (reductionStage res dim weights kA).dims, d ∈ res.dims := by
  cases weights <;> exact fun d hd => (List.mem_filter.mp hd).1

/-- Concrete observations array used by witnesses (constant data, so it is
trivially well formed). -/
def obsW : DA :=
  { dims := ["time"], size := fun _ => 2, coords := fun _ => [],
    data := fun _ => 1, attrs := [("units", "m")] }

/-- Concrete forecasts array without a member dimension. -/
def fcNoMember : DA :=
  { dims := ["time", "lead"], size := fun _ => 2, coords := fun _ => [],
    data := fun _ => 2, attrs := [] }

/-- Concrete forecasts array with a member dimension. -/
def fcWithMember : DA :=
  { dims := ["time", "member"], size := fun _ => 2, coords := fun _ => [],
    data := fun _ => 3, attrs := [] }

/-- Claim C1: calling crps_ensemble with a forecasts input that has no
dimension named member (and the default member_dim) always produces the
missing-core-dimension error that apply_ufunc raises; it never silently
succeeds. -/
theorem crps_ensemble_missing_member_errors
    (k : ℚ → List ℚ → Option (List ℚ) → Bool → ℚ) (observations forecasts : DA)
    (mw : Option (List ℚ)) (issorted : Bool) (dim : Option (List String))
    (weights : Option DA) (keep_attrs : Bool)
    (h : "member" ∉ forecasts.dims) :
    ∃ msg, crps_ensemble k observations forecasts mw issorted "member" dim weights
        keep_attrs = .error msg := by
  unfold crps_ensemble
  rw [if_neg h]
  exact ⟨_, rfl⟩

theorem crps_ensemble_missing_member_errors_witness :
    "member" ∉ fcNoMember.dims ∧
      ∃ msg, crps_ensemble (fun _ _ _ _ => 0) obsW fcNoMember none false "member" none
          none false = .error msg :=
  ⟨by decide,
    crps_ensemble_missing_member_errors (fun _ _ _ _ => 0) obsW fcNoMember none false
      none none false (by decide)⟩

/-- Claim C2: a threshold given as a list of scalars is materialized as a
labeled array with the single dimension named threshold, holding the list's
values sorted ascending, with integer coordinate labels 1, 2, ..., n. -/
theorem threshold_list_materialization (l : List ℚ) :
    (materializeThreshold l).dims = ["threshold"] ∧
      (materializeThreshold l).coords "threshold" =
        (List.range l.length).map (fun i => ((i + 1 : ℕ) : ℚ)) ∧
      List.Sorted (· ≤ ·) (valuesAlong (materializeThreshold l) "threshold") ∧
      (valuesAlong (materializeThreshold l) "threshold").Perm l := by
  have hlen : (pySortList l).length = l.length :=
    (List.perm_insertionSort (fun a b => a ≤ b) l).length_eq
  have hv : valuesAlong (materializeThreshold l) "threshold" = pySortList l := by
    simp only [valuesAlong, materializeThreshold, override, if_pos rfl]
    exact map_range_getD (pySortList l)
  refine ⟨rfl, ?_, ?_, ?_⟩
  · simp [materializeThreshold, hlen]
  · rw [hv]
    exact List.sorted_insertionSort (fun a b => a ≤ b) l
  · rw [hv]
    exact List.perm_insertionSort (fun a b => a ≤ b) l

/-- Acceptance predicate following the claim's words: the threshold argument
is a numeric scalar, a list, or a labeled array or dataset carrying a
dimension named threshold. -/
def specAcceptedThreshold (t : PyThreshold) : Prop :=
  t.isNumber = true ∨ (∃ l, t = .list l) ∨
    (∃ a, t = .dataArray a ∧ "threshold" ∈ a.dims) ∨
    (∃ c, t = .dataset c ∧ "threshold" ∈ dsDims c)

/-- Claim C3: the threshold validation of threshold_brier_score raises an
error if and only if the argument is neither a numeric scalar, nor a list,
nor a labeled array or dataset carrying a threshold dimension; every other
argument is accepted past this check. -/
theorem routeThreshold_error_iff (t : PyThreshold) :
    (∃ e, routeThreshold t = .error e) ↔ ¬ specAcceptedThreshold t := by
  cases t with
  | int n => simp [routeThreshold, specAcceptedThreshold, PyThreshold.isNumber]
  | float q => simp [routeThreshold, specAcceptedThreshold, PyThreshold.isNumber]
  | bool b => simp [routeThreshold, specAcceptedThreshold, PyThreshold.isNumber]
  | list l => simp [routeThreshold, specAcceptedThreshold, PyThreshold.isNumber]
  | dataArray a =>
      by_cases h : "threshold" ∈ a.dims <;>
        simp [routeThreshold, specAcceptedThreshold, PyThreshold.isNumber, h]
  | dataset c =>
      by_cases h : "threshold" ∈ dsDims c <;>
        simp [routeThreshold, specAcceptedThreshold, PyThreshold.isNumber, h]
  | other d => simp [routeThreshold, specAcceptedThreshold, PyThreshold.isNumber]

/-- Claim C10: a Python boolean threshold passes the isinstance(int, float)
check (bool is a subclass of int), is routed through the scalar path with the
numeric value 1 or 0, behaves exactly like that number, and adds no threshold
output dimension. -/
theorem tbs_bool_threshold_scalar_path
    (k : ℚ → List ℚ → ℚ → Bool → ℚ) (obs fc : DA) (b : Bool) (issorted : Bool)
    (member_dim : String) (dim : Option (List String)) (weights : Option DA)
    (keep_attrs : Bool) :
    routeThreshold (.bool b) = .ok (.scalar (if b then 1 else 0)) ∧
      threshold_brier_score k obs fc (.bool b) issorted member_dim dim weights
          keep_attrs =
        threshold_brier_score k obs fc (.float (if b then 1 else 0)) issorted member_dim
          dim weights keep_attrs ∧
      (member_dim ∈ fc.dims → "threshold" ∉ obs.dims → "threshold" ∉ fc.dims →
        ∃ r, threshold_brier_score k obs fc (.bool b) issorted member_dim dim weights
            keep_attrs = .ok (.arr r) ∧ "threshold" ∉ r.dims) := by
  refine ⟨rfl, by cases b <;> rfl, ?_⟩
  intro hm hto htf
  simp only [threshold_brier_score, routeThreshold, applyTbsScalar]
  rw [if_pos hm]
  refine ⟨_, rfl, ?_⟩
  intro hmem
  have hsub := reductionStage_dims_subset _ dim weights keep_attrs _ hmem
  rcases (mem_unionDims _ _ _).1 hsub with h1 | h2
  · exact hto h1
  · exact htf (List.mem_filter.mp h2).1

theorem tbs_bool_threshold_scalar_path_witness :
    ("member" ∈ fcWithMember.dims ∧ "threshold" ∉ obsW.dims ∧
        "threshold" ∉ fcWithMember.dims) ∧
      ∃ r, threshold_brier_score (fun _ _ t _ => t) obsW fcWithMember (.bool true) false
          "member" none none false = .ok (.arr r) ∧ "threshold" ∉ r.dims :=
  ⟨⟨by decide, by decide, by decide⟩,
    (tbs_bool_threshold_scalar_path (fun _ _ t _ => t) obsW fcWithMember true false
        "member" none none false).2.2 (by decide) (by decide) (by decide)⟩

/-- Claim C5: with weights absent, the reduction stage returns the unweighted
arithmetic mean of the kernel output over the requested dimensions (the sum
of the cell values over every index tuple of those dimensions, divided by the
number of such tuples), and with dim = None it reduces over every dimension
of its input, yielding a 0-dimensional result; for a multi-variable container
each variable is reduced independently to 0 dimensions. -/
theorem reduction_unweighted_mean (res : DA) (dim : Option (List String)) (kA : Bool) :
    (∀ f, (reductionStage res dim none kA).data f =
        ((indexTuples ((reduceDims res dim).map res.size)).map
            (fun t => res.data (overrideAll f (reduceDims res dim) t))).sum /
          (((indexTuples ((reduceDims res dim).map res.size)).length : ℕ) : ℚ)) ∧
      (reductionStage res dim none kA).dims =
        res.dims.filter (fun d => decide (d ∉ reduceDims res dim)) ∧
      (dim = none → (reductionStage res dim none kA).dims = []) ∧
      (∀ c : Ds, ∀ p ∈ reductionStageDs c none none kA, p.2.dims = []) := by
  have hnone : ∀ a : DA, (reductionStage a none none kA).dims = [] := by
    intro a
    show a.dims.filter _ = []
    apply List.filter_eq_nil_iff.mpr
    intro d hd
    simp [reduceDims, hd]
  refine ⟨?_, rfl, ?_, ?_⟩
  · intro f
    show sumOverD res.size res.data (reduceDims res dim) f / _ = _
    rw [sumOverD_eq_tuples, indexTuples_length]
  · rintro rfl
    exact hnone res
  · intro c p hp
    rcases List.mem_map.mp hp with ⟨a, _, rfl⟩
    exact hnone a.2

theorem reduction_unweighted_mean_witness :
    (reductionStage obsW none none false).dims = [] ∧
      (("v", reductionStage obsW none none false) : String × DA).2.dims = [] :=
  ⟨(reduction_unweighted_mean obsW none false).2.2.1 rfl,
    (reduction_unweighted_mean obsW none false).2.2.2 [("v", obsW)]
      ("v", reductionStage obsW none none false) (List.mem_singleton.mpr rfl)⟩

/-- Claim C6: for every array and every choice of reduction dimensions, the
weighted reduction with all weights equal to 1 equals the unweighted mean
over the same dimensions. -/
theorem reduction_uniform_weights (res w : DA) (dim : Option (List String)) (kA : Bool)
    (hw : ∀ f, w.data f = 1) :
    reductionStage res dim (some w) kA = reductionStage res dim none kA := by
  show weightedMeanDA res w (reduceDims res dim) kA = meanDA res (reduceDims res dim) kA
  unfold weightedMeanDA meanDA
  congr 1
  funext f
  rw [sumOverD_congr res.size res.size (fun h => res.data h * w.data h) res.data
      (reduceDims res dim) f (fun _ _ => rfl)
      (fun h => by show res.data h * w.data h = res.data h; rw [hw h, mul_one])]
  rw [show sumOverD res.size w.data (reduceDims res dim) f =
      sumOverD res.size (fun _ => (1 : ℚ)) (reduceDims res dim) f from
    sumOverD_congr _ _ _ _ _ _ (fun _ _ => rfl) hw]
  rw [sumOverD_const_one]

/-- Uniform weights array used by the witness of the uniform-weights claim. -/
def oneW : DA :=
  { dims := [], size := fun _ => 1, coords := fun _ => [],
    data := fun _ => 1, attrs := [] }

theorem reduction_uniform_weights_witness :
    (∀ f, oneW.data f = 1) ∧
      reductionStage obsW none (some oneW) false = reductionStage obsW none none false :=
  ⟨fun _ => rfl, reduction_uniform_weights obsW oneW none false (fun _ => rfl)⟩

/-- Concrete arrays with differing dimension-name sets, for witnesses. -/
def daX : DA :=
  { dims := ["x"], size := fun _ => 2, coords := fun _ => [],
    data := fun _ => 1, attrs := [] }

/-- See daX. -/
def daY : DA :=
  { dims := ["y"], size := fun _ => 3, coords := fun _ => [],
    data := fun _ => 2, attrs := [] }

/-- Claim C7: the shape normalizer of crps_gaussian promotes a bare numeric
scalar to a zero-dimensional labeled array; a pair whose dimension-name sets
differ is broadcast so that both results carry the union of the two dimension
sets; a pair already sharing identical dimension names (the dims tuples the
source compares being equal) is passed through unchanged with no broadcast. -/
theorem gaussian_shape_normalizer (q : ℚ) (x y z v : DA) :
    (promote (.scalar q)).dims = [] ∧ (∀ f, (promote (.scalar q)).data f = q) ∧
      (x.dims.toFinset ≠ y.dims.toFinset →
        (normPair x y).1.dims.toFinset = x.dims.toFinset ∪ y.dims.toFinset ∧
          (normPair x y).2.dims.toFinset = x.dims.toFinset ∪ y.dims.toFinset) ∧
      (v.dims = z.dims → normPair z v = (z, v)) := by
  refine ⟨rfl, fun _ => rfl, ?_, ?_⟩
  · intro hne
    have hy : ¬ y.dims = x.dims := fun h => hne (congrArg List.toFinset h).symm
    unfold normPair
    rw [if_neg hy]
    exact ⟨unionDims_toFinset x.dims y.dims, unionDims_toFinset x.dims y.dims⟩
  · intro h
    unfold normPair
    rw [if_pos h]

theorem gaussian_shape_normalizer_witness :
    (daX.dims.toFinset ≠ daY.dims.toFinset ∧
        (normPair daX daY).1.dims.toFinset = daX.dims.toFinset ∪ daY.dims.toFinset ∧
        (normPair daX daY).2.dims.toFinset = daX.dims.toFinset ∪ daY.dims.toFinset) ∧
      normPair obsW obsW = (obsW, obsW) :=
  ⟨⟨by decide, (gaussian_shape_normalizer 0 daX daY obsW obsW).2.2.1 (by decide)⟩,
    (gaussian_shape_normalizer 0 daX daY obsW obsW).2.2.2 rfl⟩

/-- Claim C8 counterexample: threshold_brier_score sorts a list threshold in
place (line 307 of the source), so after a call with the list [2, 1] the
caller's list no longer equals [2, 1]; the no-mutation claim fails. -/
theorem tbs_list_threshold_mutated :
    thresholdArgAfterCall (.list [(2 : ℚ), 1]) ≠ PyThreshold.list [(2 : ℚ), 1] := by
  intro h
  exact absurd (PyThreshold.list.inj h) (by decide)

/-- Claim C8 amended: no operation mutates its labeled-array inputs, except
that threshold_brier_score sorts a list threshold in place: after the call
the caller's list holds the same values sorted ascending (so a list that was
already sorted is left equal), and a threshold argument of any other kind is
unchanged. -/
theorem tbs_threshold_mutation_spec :
    (∀ l : List ℚ, (thresholdArgAfterCall (.list l)).listValue.Perm l ∧
        List.Sorted (· ≤ ·) (thresholdArgAfterCall (.list l)).listValue) ∧
      (∀ l : List ℚ, List.Sorted (· ≤ ·) l → thresholdArgAfterCall (.list l) = .list l) ∧
      (∀ t : PyThreshold, (∀ xs, t ≠ .list xs) → thresholdArgAfterCall t = t) := by
  refine ⟨fun l => ⟨List.perm_insertionSort _ l, List.sorted_insertionSort _ l⟩, ?_, ?_⟩
  · intro l hl
    show PyThreshold.list (pySortList l) = _
    rw [show pySortList l = l from List.Sorted.insertionSort_eq hl]
  · intro t ht
    cases t with
    | int n => rfl
    | float q => rfl
    | bool b => rfl
    | list l => exact absurd rfl (ht l)
    | dataArray a => rfl
    | dataset c => rfl
    | other d => rfl

theorem tbs_threshold_mutation_spec_witness :
    thresholdArgAfterCall (.list [(1 : ℚ), 2]) = .list [(1 : ℚ), 2] ∧
      thresholdArgAfterCall (.float 3) = .float 3 :=
  ⟨tbs_threshold_mutation_spec.2.1 [(1 : ℚ), 2] (by decide),
    tbs_threshold_mutation_spec.2.2 (.float 3) (fun _ h => PyThreshold.noConfusion h)⟩

/-- Claim C9: for every operation, with keep_attrs true the result's
attributes equal the first input's attributes, and with keep_attrs false the
result carries none; the flag is applied consistently through both the kernel
application and the reduction stage. -/
theorem keep_attrs_propagation :
    (∀ (k : ℚ → ℚ → ℚ → ℚ) (obs : DA) (mu sig : GaussIn) (dim : Option (List String))
        (w : Option DA) (kA : Bool), obs.attrs ≠ [] →
        (crps_gaussian k obs mu sig dim w kA).attrs = if kA then obs.attrs else []) ∧
      (∀ (k : ℚ → (ℚ → ℚ) → Option ℚ → Option ℚ → ℚ → ℚ) (x : DA) (cdf : ℚ → ℚ)
          (xmin xmax : Option ℚ) (tol : ℚ) (dim : Option (List String)) (w : Option DA)
          (kA : Bool), x.attrs ≠ [] →
          (crps_quadrature k x cdf xmin xmax tol dim w kA).attrs =
            if kA then x.attrs else []) ∧
      (∀ (k : ℚ → List ℚ → Option (List ℚ) → Bool → ℚ) (obs fc : DA)
          (mw : Option (List ℚ)) (iss : Bool) (mdim : String)
          (dim : Option (List String)) (w : Option DA) (kA : Bool), obs.attrs ≠ [] →
          mdim ∈ fc.dims →
          (crps_ensemble k obs fc mw iss mdim dim w kA).map DA.attrs =
            .ok (if kA then obs.attrs else [])) ∧
      (∀ (k : ℚ → ℚ → ℚ) (obs fc : DA) (dim : Option (List String)) (w : Option DA)
          (kA : Bool), obs.attrs ≠ [] →
          (brier_score k obs fc dim w kA).attrs = if kA then obs.attrs else []) ∧
      (∀ (k : ℚ → List ℚ → ℚ → Bool → ℚ) (obs fc : DA) (q : ℚ) (iss : Bool)
          (mdim : String) (dim : Option (List String)) (w : Option DA) (kA : Bool),
          obs.attrs ≠ [] → mdim ∈ fc.dims →
          ∃ r, threshold_brier_score k obs fc (.float q) iss mdim dim w kA =
              .ok (.arr r) ∧ r.attrs = if kA then obs.attrs else []) := by
  refine ⟨?_, ?_, ?_, ?_, ?_⟩
  · intro k obs mu sig dim w kA _
    show (reductionStage _ dim w kA).attrs = _
    rw [reductionStage_attrs]
    cases kA
    · rfl
    · show (if true then (normPair (normPair obs (promote mu)).1 (promote sig)).1.attrs
          else []) = _
      rw [if_pos rfl, normPair_fst_attrs, normPair_fst_attrs, if_pos rfl]
  · intro k x cdf xmin xmax tol dim w kA _
    show (reductionStage _ dim w kA).attrs = _
    rw [reductionStage_attrs]
    cases kA <;> rfl
  · intro k obs fc mw iss mdim dim w kA _ hm
    unfold crps_ensemble
    rw [if_pos hm]
    show Except.ok (reductionStage _ dim w kA).attrs = _
    rw [reductionStage_attrs]
    cases kA <;> rfl
  · intro k obs fc dim w kA _
    show (reductionStage _ dim w kA).attrs = _
    rw [reductionStage_attrs]
    cases kA <;> rfl
  · intro k obs fc q iss mdim dim w kA _ hm
    simp only [threshold_brier_score, routeThreshold, applyTbsScalar]
    rw [if_pos hm]
    refine ⟨_, rfl, ?_⟩
    rw [reductionStage_attrs]
    cases kA <;> rfl

theorem keep_attrs_propagation_witness :
    (crps_gaussian (fun a _ _ => a) obsW (.scalar 0) (.scalar 1) none none true).attrs =
        (if true then obsW.attrs else []) ∧
      (crps_quadrature (fun a _ _ _ _ => a) obsW (fun t => t) none none 1 none none
            true).attrs = (if true then obsW.attrs else []) ∧
      (crps_ensemble (fun a _ _ _ => a) obsW fcWithMember none false "member" none none
            true).map DA.attrs = .ok (if true then obsW.attrs else []) ∧
      (brier_score (fun a _ => a) obsW fcWithMember none none true).attrs =
        (if true then obsW.attrs else []) ∧
      ∃ r, threshold_brier_score (fun a _ _ _ => a) obsW fcWithMember (.float 0) false
          "member" none none true = .ok (.arr r) ∧
          r.attrs = if true then obsW.attrs else [] :=
  ⟨keep_attrs_propagation.1 (fun a _ _ => a) obsW (.scalar 0) (.scalar 1) none none true
      (by decide),
    keep_attrs_propagation.2.1 (fun a _ _ _ _ => a) obsW (fun t => t) none none 1 none
      none true (by decide),
    keep_attrs_propagation.2.2.1 (fun a _ _ _ => a) obsW fcWithMember none false "member"
      none none true (by decide) (by decide),
    keep_attrs_propagation.2.2.2.1 (fun a _ => a) obsW fcWithMember none none true
      (by decide),
    keep_attrs_propagation.2.2.2.2 (fun a _ _ _ => a) obsW fcWithMember 0 false "member"
      none none true (by decide) (by decide)⟩

/-- Claim C4: for observations, forecasts and a scalar threshold t (on calls
that are in range: member dimension present, no pre-existing threshold
dimension, reduction dimensions taken from the result's dimensions),
threshold_brier_score with threshold t equals threshold_brier_score with the
one-element list [t] after dropping the resulting singleton threshold
dimension from the latter. -/
theorem tbs_scalar_eq_singleton_list
    (k : ℚ → List ℚ → ℚ → Bool → ℚ) (obs fc : DA) (t : ℚ) (issorted : Bool)
    (member_dim : String) (ds : List String) (keep_attrs : Bool)
    (hwfo : obs.wf) (hwff : fc.wf)
    (hm : member_dim ∈ fc.dims) (hmth : member_dim ≠ "threshold")
    (hto : "threshold" ∉ obs.dims) (htf : "threshold" ∉ fc.dims)
    (hds : ∀ d ∈ ds,
      d ∈ unionDims obs.dims (fc.dims.filter (fun x => decide (x ≠ member_dim)))) :
    ∃ a b : DA,
      threshold_brier_score k obs fc (.float t) issorted member_dim (some ds) none
          keep_attrs = .ok (.arr a) ∧
        threshold_brier_score k obs fc (.list [t]) issorted member_dim (some ds) none
            keep_attrs = .ok (.arr b) ∧
        DAequiv (dropDim "threshold" b) a := by
  set U : List String :=
    unionDims obs.dims (fc.dims.filter (fun x => decide (x ≠ member_dim))) with hU
  set TH : DA := materializeThreshold [t] with hTH
  set A : DA := tbsScalarKernelOut k obs fc t issorted member_dim keep_attrs with hA
  set B : DA := tbsVectorKernelOut k obs fc TH issorted member_dim keep_attrs with hB
  have hthTH : "threshold" ∈ TH.dims := List.mem_singleton.mpr rfl
  have hthU : "threshold" ∉ U := by
    intro hmem
    rcases (mem_unionDims _ _ _).1 hmem with h1 | h1
    · exact hto h1
    · exact htf (List.mem_filter.mp h1).1
  have hthds : "threshold" ∉ ds := fun hmem => hthU (hds _ hmem)
  have hsz : ∀ d ∈ U, B.size d = A.size d := by
    intro d hd
    show (if d ∈ obs.dims then obs.size d else if d ∈ fc.dims then fc.size d
        else TH.size d) = (if d ∈ obs.dims then obs.size d else fc.size d)
    by_cases h1 : d ∈ obs.dims
    · simp [h1]
    · rcases (mem_unionDims d _ _).1 hd with h2 | h2
      · exact absurd h2 h1
      · simp [h1, (List.mem_filter.mp h2).1]
  have hcrd : ∀ d ∈ U, B.coords d = A.coords d := by
    intro d hd
    show (if d ∈ obs.dims then obs.coords d else if d ∈ fc.dims then fc.coords d
        else TH.coords d) = (if d ∈ obs.dims then obs.coords d else fc.coords d)
    by_cases h1 : d ∈ obs.dims
    · simp [h1]
    · rcases (mem_unionDims d _ _).1 hd with h2 | h2
      · exact absurd h2 h1
      · simp [h1, (List.mem_filter.mp h2).1]
  have hBdims : B.dims = U ++ ["threshold"] := by
    show unionDims U (TH.dims.filter (fun d => decide (d ≠ "threshold"))) ++ ["threshold"]
        = U ++ ["threshold"]
    have h0 : TH.dims.filter (fun d => decide (d ≠ "threshold")) = [] := by
      show List.filter (fun d => decide (d ≠ "threshold")) ["threshold"] = []
      decide
    rw [h0]
    show (U ++ []) ++ ["threshold"] = U ++ ["threshold"]
    rw [List.append_nil]
  have hpt : ∀ h : String → Nat, B.data (override h "threshold" 0) = A.data h := by
    intro h
    show k (obs.data (override h "threshold" 0))
        (membersOf fc member_dim (override h "threshold" 0))
        (TH.data (override h "threshold" 0)) issorted =
      k (obs.data h) (membersOf fc member_dim h) t issorted
    have h1 : obs.data (override h "threshold" 0) = obs.data h := by
      apply hwfo
      intro d hd
      have hne : ¬ d = "threshold" := fun hEq => hto (hEq ▸ hd)
      simp [override, hne]
    have h2 : membersOf fc member_dim (override h "threshold" 0) =
        membersOf fc member_dim h := by
      unfold membersOf
      apply List.map_congr_left
      intro i _
      rw [override_comm h "threshold" member_dim 0 i (Ne.symm hmth)]
      apply hwff
      intro d hd
      have hne : ¬ d = "threshold" := fun hEq => htf (hEq ▸ hd)
      simp [override, hne]
    have h3 : TH.data (override h "threshold" 0) = t := rfl
    rw [h1, h2, h3]
  refine ⟨reductionStage A (some ds) none keep_attrs,
    reductionStage B (some ds) none keep_attrs, ?_, ?_, ?_⟩
  · simp only [threshold_brier_score, routeThreshold]
    rw [applyTbsScalar, if_pos hm]
    rfl
  · simp only [threshold_brier_score, routeThreshold]
    rw [applyTbsVector, if_pos hm, if_pos hthTH]
    rfl
  · have hmemU : ∀ d, d ∈ (dropDim "threshold" (reductionStage B (some ds) none
        keep_attrs)).dims → d ∈ U ∧ d ∉ ds ∧ d ≠ "threshold" := by
      intro d hd
      have h1 := List.mem_filter.mp hd
      have h2 := List.mem_filter.mp h1.1
      have h3 : d ∈ U ++ ["threshold"] := hBdims ▸ h2.1
      have hdth : d ≠ "threshold" := by simpa using h1.2
      have hdds : d ∉ ds := by simpa using h2.2
      rcases List.mem_append.mp h3 with h4 | h4
      · exact ⟨h4, hdds, hdth⟩
      · exact absurd (List.mem_singleton.mp h4) hdth
    refine ⟨?_, ?_, ?_, ?_, ?_⟩
    · show (B.dims.filter (fun d => decide (d ∉ ds))).filter
          (fun d => decide (d ≠ "threshold")) =
        A.dims.filter (fun d => decide (d ∉ ds))
      rw [hBdims, List.filter_append, List.filter_append]
      have h5 : List.filter (fun d => decide (d ∉ ds)) ["threshold"] = ["threshold"] := by
        simp [hthds]
      have h6 : List.filter (fun d => decide (d ≠ "threshold")) ["threshold"] = [] := by
        decide
      rw [h5, h6, List.append_nil]
      exact filter_ne_of_not_mem "threshold" _
        (fun hmem => hthU (List.mem_filter.mp hmem).1)
    · intro d hd
      exact hsz d (hmemU d hd).1
    · intro d hd
      rcases hmemU d hd with ⟨hdU, hdds, hdth⟩
      show (if d = "threshold" then []
          else if d ∈ ds then [] else B.coords d) = if d ∈ ds then [] else A.coords d
      rw [if_neg hdth, if_neg hdds, if_neg hdds]
      exact hcrd d hdU
    · intro f
      show sumOverD B.size B.data ds (override f "threshold" 0) /
          (((ds.map B.size).prod : ℕ) : ℚ) =
        sumOverD A.size A.data ds f / (((ds.map A.size).prod : ℕ) : ℚ)
      have hdsmap : ds.map B.size = ds.map A.size :=
        List.map_congr_left (fun d hd => hsz d (hds d hd))
      have hnum : sumOverD B.size B.data ds (override f "threshold" 0) =
          sumOverD A.size A.data ds f := by
        rw [sumOverD_congr B.size A.size B.data B.data ds (override f "threshold" 0)
          (fun d hd => hsz d (hds d hd)) (fun _ => rfl)]
        rw [sumOverD_base_override A.size B.data ds f "threshold" 0 hthds]
        exact sumOverD_congr _ _ _ _ _ _ (fun _ _ => rfl) hpt
      rw [hnum, hdsmap]
    · show (if keep_attrs then B.attrs else []) = (if keep_attrs then A.attrs else [])
      cases keep_attrs <;> rfl

theorem tbs_scalar_eq_singleton_list_witness :
    (obsW.wf ∧ fcWithMember.wf ∧ "member" ∈ fcWithMember.dims ∧
        ("member" : String) ≠ "threshold" ∧ "threshold" ∉ obsW.dims ∧
        "threshold" ∉ fcWithMember.dims ∧
        ∀ d ∈ ["time"], d ∈ unionDims obsW.dims
          (fcWithMember.dims.filter (fun x => decide (x ≠ "member")))) ∧
      ∃ a b : DA,
        threshold_brier_score (fun _ _ q _ => q) obsW fcWithMember (.float 5) false
            "member" (some ["time"]) none true = .ok (.arr a) ∧
          threshold_brier_score (fun _ _ q _ => q) obsW fcWithMember (.list [5]) false
              "member" (some ["time"]) none true = .ok (.arr b) ∧
          DAequiv (dropDim "threshold" b) a :=
  ⟨⟨fun _ _ _ => rfl, fun _ _ _ => rfl, by decide, by decide, by decide, by decide,
      by decide⟩,
    tbs_scalar_eq_singleton_list (fun _ _ q _ => q) obsW fcWithMember 5 false "member"
      ["time"] true (fun _ _ _ => rfl) (fun _ _ _ => rfl) (by decide) (by decide)
      (by decide) (by decide) (by decide)⟩

end XSkill
